import Mathlib

/-
Verification development for the `fizmatcommbot` Telegram gatekeeper bot
(`TgBotAra/bot.py`).  The bot's pure logic is shallowly embedded here:

* strings are modelled as lists of Unicode code points (`List Nat`); Python
  `str.strip()` / `str.lower()` are modelled on the ASCII range, which covers
  every character that the institutional e-mail regex can accept;
* the SQLite tables `profiles` and `pending` are modelled as Lean lists and
  the ad-hoc queries of the DB layer as list functions;
* the aiogram finite-state registration form is modelled as a `Session`
  record, each handler as a pure function on it;
* the module-level notification-throttle dictionaries are modelled as a
  `ThrottleState` record;
* the whole event dispatch (joins, group messages, /start, form input,
  callbacks, admin commands) is modelled by a `step` function on a global
  state `GState`, emitting restrict/unlock actions.
-/

namespace TgBotAra

/-- Strings as lists of Unicode code points. -/
abbrev Str := List Nat

/-- Convert a Lean string literal to its code-point model. -/
def strN (s : String) : Str := s.toList.map Char.toNat

/-- Whitespace as removed by Python `str.strip()`, restricted to ASCII:
space, tab, newline, carriage return, vertical tab, form feed. -/
def isPySpace (n : Nat) : Bool :=
  decide (n = 32 ∨ n = 9 ∨ n = 10 ∨ n = 13 ∨ n = 11 ∨ n = 12)

/-- Python `str.strip()`: drop whitespace from both ends. -/
def pyStrip (s : Str) : Str :=
  ((s.dropWhile isPySpace).reverse.dropWhile isPySpace).reverse

/-- Python `str.lower()` on one character (ASCII range: `A`-`Z` map to
`a`-`z`, everything else is unchanged). -/
def pyLower (n : Nat) : Nat :=
  if 65 ≤ n ∧ n ≤ 90 then n + 32 else n

/-- Python `str.lower()` on a whole string. -/
def pyLowerStr (s : Str) : Str := s.map pyLower

/-- Normalisation applied by the bot before storing or validating an
e-mail address: `email.strip().lower()`. -/
def pyNormalizeEmail (s : Str) : Str := pyLowerStr (pyStrip s)

/-- Character class `[A-Za-z0-9._%+-]` of the local part of the e-mail
regex `FIZMAT_EMAIL_RE`. -/
def isLocalChar (n : Nat) : Bool :=
  decide ((97 ≤ n ∧ n ≤ 122) ∨ (65 ≤ n ∧ n ≤ 90) ∨ (48 ≤ n ∧ n ≤ 57) ∨
    n = 46 ∨ n = 95 ∨ n = 37 ∨ n = 43 ∨ n = 45)

/-- Code points of the literal suffix `@fizmat.kz` of `FIZMAT_EMAIL_RE`. -/
def fizmatDomain : Str := [64, 102, 105, 122, 109, 97, 116, 46, 107, 122]

/-- Matcher for `FIZMAT_EMAIL_RE.fullmatch`, i.e. the anchored pattern
`[A-Za-z0-9._%+-]+@fizmat\.kz` with `re.IGNORECASE`.  The character class
excludes `@` while the literal suffix starts with `@`, so the split point
is unique and greedy matching is exact. -/
def fizmatRegexMatch (l : Str) : Bool :=
  decide (l.takeWhile isLocalChar ≠ []) &&
  decide (pyLowerStr (l.dropWhile isLocalChar) = fizmatDomain)

/-- Model of `is_valid_fizmat_email` (bot.py:175-178): an empty (falsy)
string is rejected, otherwise the stripped and lowercased string must
fully match `FIZMAT_EMAIL_RE`. -/
def is_valid_fizmat_email (email : Str) : Bool :=
  if email = [] then false
  else fizmatRegexMatch (pyNormalizeEmail email)

/-- Spec-side reading of claim C3, written from the spec's words, to be
compared with `is_valid_fizmat_email`: the string, after trimming
surrounding whitespace, matches `local@fizmat.kz` case-insensitively,
where the local part is one or more characters drawn from letters,
digits and `. _ % + -`. -/
def emailSpecAccepts (s : Str) : Prop :=
  ∃ loc rest, pyStrip s = loc ++ rest ∧ loc ≠ [] ∧
    (∀ c ∈ loc, isLocalChar c = true) ∧ pyLowerStr rest = fizmatDomain

/-- Right-strip: remove trailing whitespace (helper for reasoning about
`pyStrip`). -/
def rstrip (l : Str) : Str := (l.reverse.dropWhile isPySpace).reverse

/-- Row of the `profiles` table (bot.py:60-67).  `created_at` is stored by
the bot as `datetime.utcnow().isoformat()`, a text timestamp whose
lexicographic order agrees with chronological order; it is modelled as a
monotone natural-number clock value. -/
structure Profile where
  user_id : Int
  first_name : Str
  last_name : Str
  school_cls : Str
  email : Option Str
  created_at : Nat
deriving DecidableEq

/-- Row of the `pending` table (bot.py:69-74), primary key
`(user_id, chat_id)`. -/
structure PendingEntry where
  user_id : Int
  chat_id : Int
  created_at : Nat
deriving DecidableEq

/-- Failures `save_profile` can raise: `invalidEmail` is the
`ValueError` of bot.py:119, `uniqueEmailViolation` is the
`sqlite3.IntegrityError` produced by the unique index
`idx_profiles_email_unique` (bot.py:96-99). -/
inductive SaveError
  | invalidEmail
  | uniqueEmailViolation
deriving DecidableEq

/-- Upsert semantics of `INSERT ... ON CONFLICT(user_id) DO UPDATE`
(bot.py:122-132): replace the row keyed by `p.user_id` in place, or append
a new row.  The SQL primary key guarantees at most one row per user. -/
def upsertProfile : List Profile → Profile → List Profile
  | [], p => [p]
  | q :: rest, p =>
      if q.user_id = p.user_id then p :: rest else q :: upsertProfile rest p

/-- Model of `save_profile` (bot.py:115-142): normalise the e-mail, raise
`ValueError` when it fails domain validation, raise `IntegrityError` when
another user's row already stores the same e-mail (unique index), and
otherwise upsert the row with the other fields stripped. -/
def save_profile (store : List Profile) (uid : Int) (fn ln cls em : Str) (now : Nat) :
    Except SaveError (List Profile) :=
  let email_norm := pyNormalizeEmail em
  if is_valid_fizmat_email email_norm = false then .error .invalidEmail
  else if ∃ p ∈ store, p.user_id ≠ uid ∧ p.email = some email_norm then
    .error .uniqueEmailViolation
  else
    .ok (upsertProfile store ⟨uid, pyStrip fn, pyStrip ln, pyStrip cls, some email_norm, now⟩)

/-- Model of `is_registered` (bot.py:109-112). -/
def is_registered (store : List Profile) (u : Int) : Bool :=
  decide (∃ p ∈ store, p.user_id = u)

/-- Model of `get_profile_row` (bot.py:522-528). -/
def get_profile_row (store : List Profile) (u : Int) : Option Profile :=
  store.find? (fun p => decide (p.user_id = u))

/-- Model of `delete_profile` (bot.py:567-570). -/
def delete_profile (store : List Profile) (u : Int) : List Profile :=
  store.filter (fun p => decide (¬ p.user_id = u))

/-- Model of `add_pending` (bot.py:145-151): SQLite `REPLACE` deletes any
row with the same `(user_id, chat_id)` key and inserts the new one. -/
def add_pending (ps : List PendingEntry) (u c : Int) (now : Nat) : List PendingEntry :=
  ps.filter (fun p => decide (¬ (p.user_id = u ∧ p.chat_id = c))) ++ [⟨u, c, now⟩]

/-- Rows of `pending` belonging to one user. -/
def pendingFor (ps : List PendingEntry) (u : Int) : List PendingEntry :=
  ps.filter (fun p => decide (p.user_id = u))

/-- The row selected by `ORDER BY created_at DESC LIMIT 1` (bot.py:157):
an entry with maximal `created_at` (on ties SQLite leaves the choice
unspecified; the model keeps the first of the tied rows). -/
def pickLatest : List PendingEntry → Option PendingEntry
  | [] => none
  | p :: ps =>
      match pickLatest ps with
      | none => some p
      | some q => if p.created_at < q.created_at then some q else some p

/-- Model of `consume_pending` (bot.py:154-166): select the user's most
recently created pending row, delete it, and return its chat id together
with the updated table. -/
def consume_pending (ps : List PendingEntry) (u : Int) : Option Int × List PendingEntry :=
  match pickLatest (pendingFor ps u) with
  | none => (none, ps)
  | some p =>
      (some p.chat_id,
       ps.filter (fun q => decide (¬ (q.user_id = u ∧ q.chat_id = p.chat_id))))

/-- States of the aiogram `Reg` states group (bot.py:184-189). -/
inductive RegState
  | first_name
  | last_name
  | school_cls
  | email
  | confirm
deriving DecidableEq

/-- Accumulated FSM data (the `state.update_data` dictionary). -/
structure SessData where
  first_name : Option Str
  last_name : Option Str
  school_cls : Option Str
  email : Option Str
deriving DecidableEq

/-- A user's transient registration session: current state plus data. -/
structure Session where
  st : RegState
  data : SessData
deriving DecidableEq

/-- Empty FSM data of a fresh session. -/
def emptyData : SessData := ⟨none, none, none, none⟩

/-- The `data.get(key, "")` fallback used by `confirm` (bot.py:485-491). -/
def getField (o : Option Str) : Str := o.getD []

/-- Model of `reg_first_name` (bot.py:396-400): store the stripped text,
advance to `last_name`. -/
def reg_first_name (s : Session) (text : Str) : Session :=
  ⟨.last_name, { s.data with first_name := some (pyStrip text) }⟩

/-- Model of `reg_last_name` (bot.py:403-407). -/
def reg_last_name (s : Session) (text : Str) : Session :=
  ⟨.school_cls, { s.data with last_name := some (pyStrip text) }⟩

/-- Model of `reg_class` (bot.py:410-414). -/
def reg_class (s : Session) (text : Str) : Session :=
  ⟨.email, { s.data with school_cls := some (pyStrip text) }⟩

/-- Visible outcome of the `reg_email` handler. -/
inductive EmailStepOutcome
  | reprompted
  | advanced
deriving DecidableEq

/-- Model of `reg_email` (bot.py:417-448): normalise the text; on invalid
e-mail answer a warning and return without touching state or data; on
valid e-mail store it and advance to `confirm`. -/
def reg_email (s : Session) (text : Str) : Session × EmailStepOutcome :=
  let email := pyNormalizeEmail text
  if is_valid_fizmat_email email = false then (s, .reprompted)
  else (⟨.confirm, { s.data with email := some email }⟩, .advanced)

/-- Model of `edit_first` (bot.py:451-455): only the state changes. -/
def edit_first (s : Session) : Session := ⟨.first_name, s.data⟩

/-- Model of `edit_last` (bot.py:458-462). -/
def edit_last (s : Session) : Session := ⟨.last_name, s.data⟩

/-- Model of `edit_cls` (bot.py:465-469). -/
def edit_cls (s : Session) : Session := ⟨.school_cls, s.data⟩

/-- Model of `edit_email` (bot.py:472-476). -/
def edit_email (s : Session) : Session := ⟨.email, s.data⟩

/-- Visible outcome of the `confirm` callback handler. -/
inductive ConfirmOutcome
  | registered (unlockedChat : Option Int)
  | repromptEmail
  | uncaught (e : SaveError)
deriving DecidableEq

/-- Result of the `confirm` callback handler. -/
structure ConfirmResult where
  profiles : List Profile
  pending : List PendingEntry
  session : Option Session
  outcome : ConfirmOutcome
deriving DecidableEq

/-- Model of the `confirm` callback (bot.py:479-507).  `save_profile` is
attempted with the collected data (missing fields default to the empty
string).  Only `ValueError` is caught (bot.py:492): it re-prompts and
moves the state back to `email`.  Any other exception — in particular the
`IntegrityError` of a duplicate e-mail — propagates out of the handler,
so the session is left exactly as it was.  On success the session is
cleared, one pending entry is consumed and, when its chat id is truthy
(non-zero), that chat is unlocked. -/
def confirm_handler (store : List Profile) (ps : List PendingEntry)
    (s : Session) (uid : Int) (now : Nat) : ConfirmResult :=
  match save_profile store uid (getField s.data.first_name) (getField s.data.last_name)
      (getField s.data.school_cls) (getField s.data.email) now with
  | .error .invalidEmail => ⟨store, ps, some ⟨.email, s.data⟩, .repromptEmail⟩
  | .error e => ⟨store, ps, some s, .uncaught e⟩
  | .ok store' =>
      match consume_pending ps uid with
      | (some c, ps') =>
          if c ≠ 0 then ⟨store', ps', none, .registered (some c)⟩
          else ⟨store', ps', none, .registered none⟩
      | (none, ps') => ⟨store', ps', none, .registered none⟩

/-- `NOTICE_COOLDOWN` (bot.py:257): at most one group notice per minute. -/
def NOTICE_COOLDOWN : Int := 60

/-- `BATCH_THRESHOLD` (bot.py:258): notify earlier when 20 users pile up. -/
def BATCH_THRESHOLD : Nat := 20

/-- The module-level throttle maps `NEED_DM_CACHE` (chat id to the set of
users whose DMs are closed) and `LAST_NOTICE_AT` (chat id to the time of
the last group notice, `.get(chat_id, 0)` defaulting to 0). -/
structure ThrottleState where
  needDm : Int → List Int
  lastNoticeAt : Int → Int

/-- Throttle state at module load: both dictionaries empty. -/
def initialThrottle : ThrottleState := ⟨fun _ => [], fun _ => 0⟩

/-- Python `set.add`: insert without duplicating. -/
def addToSet (l : List Int) (u : Int) : List Int :=
  if u ∈ l then l else l ++ [u]

/-- Pointwise update of a map modelled as a function. -/
def upd {α β : Type} [DecidableEq α] (f : α → β) (k : α) (v : β) : α → β :=
  fun x => if x = k then v else f x

/-- Model of the throttled branch of `guard_group_messages` taken when the
DM could not be delivered (bot.py:348-362): the user is added to the
chat's set; if at least `NOTICE_COOLDOWN` seconds passed since the last
notice, or the set reached `BATCH_THRESHOLD`, the timestamp is set to
`now`, the set is cleared and a group notice is sent (returned flag
`true`); otherwise nothing is emitted. -/
def dm_failed_step (st : ThrottleState) (chat user : Int) (now : Int) :
    ThrottleState × Bool :=
  let s := addToSet (st.needDm chat) user
  if NOTICE_COOLDOWN ≤ now - st.lastNoticeAt chat ∨ BATCH_THRESHOLD ≤ s.length then
    (⟨upd st.needDm chat [], upd st.lastNoticeAt chat now⟩, true)
  else
    (⟨upd st.needDm chat s, st.lastNoticeAt⟩, false)

/-- Visible outcome of `/who`. -/
inductive WhoOutcome
  | refused
  | usage
  | found (p : Profile)
  | notFound
deriving DecidableEq

/-- Model of `who_cmd_private` (bot.py:531-564).  The allow-list gate is
`if ALLOWED_ADMINS and caller not in ALLOWED_ADMINS` — an empty allow-list
is falsy, so then the gate never refuses.  `arg` is the parsed numeric
argument (`none` models a missing or non-digit argument). -/
def who_cmd_private (admins : List Int) (caller : Int) (arg : Option Int)
    (store : List Profile) : WhoOutcome :=
  if admins ≠ [] ∧ caller ∉ admins then .refused
  else
    match arg with
    | none => .usage
    | some t =>
        match get_profile_row store t with
        | some p => .found p
        | none => .notFound

/-- Visible outcome of `/remove`. -/
inductive RemoveOutcome
  | refused
  | usage
  | removed
deriving DecidableEq

/-- Model of `remove_cmd` (bot.py:573-586): same allow-list gate as
`/who`; on success the target's profile row is deleted. -/
def remove_cmd (admins : List Int) (caller : Int) (arg : Option Int)
    (store : List Profile) : RemoveOutcome × List Profile :=
  if admins ≠ [] ∧ caller ∉ admins then (.refused, store)
  else
    match arg with
    | none => (.usage, store)
    | some t => (.removed, delete_profile store t)

/-- Insertion into a list sorted by `created_at` (for `ORDER BY created_at`). -/
def insertByCreated (p : Profile) : List Profile → List Profile
  | [] => [p]
  | q :: rest =>
      if p.created_at ≤ q.created_at then p :: q :: rest else q :: insertByCreated p rest

/-- Rows of the export query `SELECT ... ORDER BY created_at` (bot.py:609-611). -/
def sortByCreated : List Profile → List Profile
  | [] => []
  | p :: rest => insertByCreated p (sortByCreated rest)

/-- Visible outcome of `/export`. -/
inductive ExportOutcome
  | refused
  | exported (rows : List Profile)
deriving DecidableEq

/-- Model of `export_csv` (bot.py:599-625).  The handler never consults
`ALLOWED_ADMINS` (the `admins` and `caller` arguments are taken but
ignored, as in the source): in a private chat it always exports; in a
group it refuses unless the caller is a chat administrator. -/
def export_csv (_admins : List Int) (_caller : Int) (isPrivate : Bool)
    (callerIsChatAdmin : Bool) (store : List Profile) : ExportOutcome :=
  if isPrivate = false ∧ callerIsChatAdmin = false then .refused
  else .exported (sortByCreated store)

/-- Externally visible permission actions of the bot: `mute` models
`restrict_chat_member` with `locked_perms()`, `unlock` models
`restrict_chat_member` with `open_perms()` inside `unlock_user_in_chat`
(bot.py:510-516). -/
inductive Action
  | mute (chat user : Int)
  | unlock (chat user : Int)
deriving DecidableEq

/-- Which field-edit callback was pressed in the confirm keyboard. -/
inductive EditTarget
  | first
  | last
  | cls
  | email
deriving DecidableEq

/-- Dispatched platform events, one per handler of the source. -/
inductive Event
  | userJoin (chat user : Int) (isBot : Bool) (isGroup : Bool)
  | groupMsg (chat user : Int)
  | startCmd (user : Int) (payload : Option Int)
  | dmText (user : Int) (text : Str)
  | editCb (user : Int) (t : EditTarget)
  | confirmCb (user : Int)
  | whoCmd (caller target : Int)
  | removeCmd (caller : Int) (target : Option Int)
deriving DecidableEq

/-- Global bot state: the two DB tables, the framework-held FSM sessions
(one per user) and the per-chat mute status of each user. -/
structure GState where
  profiles : List Profile
  pending : List PendingEntry
  sessions : Int → Option Session
  muted : Int × Int → Bool

/-- Session data reused by `/start`: `state.set_state` does not clear the
accumulated `state.update_data` dictionary, so a restarted form keeps any
previously collected values. -/
def startData (g : GState) (u : Int) : SessData :=
  match g.sessions u with
  | some s => s.data
  | none => emptyData

/-- One dispatch step of the bot: the handler matching the event runs to
completion (single-threaded event loop) and yields the new global state
plus the permission actions it performed.

* `userJoin` models `on_user_join` (bot.py:276-307);
* `groupMsg` models the DB/permission part of `guard_group_messages`
  (bot.py:310-331) — the notification throttle is modelled separately by
  `dm_failed_step`, it touches no DB or permission state;
* `startCmd` models `start` (bot.py:368-393);
* `dmText` models the form text handlers, dispatched by FSM state;
* `editCb`/`confirmCb` model the confirm-keyboard callbacks, which only
  fire in the `confirm` state;
* `whoCmd`/`removeCmd` model the admin commands. -/
def step (admins : List Int) (g : GState) (e : Event) (now : Nat) :
    GState × List Action :=
  match e with
  | .userJoin c u isBot isGroup =>
      if isGroup = false ∨ isBot = true then (g, [])
      else if is_registered g.profiles u then (g, [])
      else
        ({ g with pending := add_pending g.pending u c now,
                  muted := upd g.muted (c, u) true }, [.mute c u])
  | .groupMsg c u =>
      if is_registered g.profiles u then (g, [])
      else
        ({ g with pending := add_pending g.pending u c now,
                  muted := upd g.muted (c, u) true }, [.mute c u])
  | .startCmd u payload =>
      if is_registered g.profiles u then
        match consume_pending g.pending u with
        | (some c, ps') =>
            if c ≠ 0 then
              ({ g with pending := ps', muted := upd g.muted (c, u) false },
               [.unlock c u])
            else ({ g with pending := ps' }, [])
        | (none, ps') => ({ g with pending := ps' }, [])
      else
        let g1 :=
          match payload with
          | some c => { g with pending := add_pending g.pending u c now }
          | none => g
        ({ g1 with sessions := upd g1.sessions u (some ⟨.first_name, startData g u⟩) }, [])
  | .dmText u text =>
      match g.sessions u with
      | none => (g, [])
      | some s =>
          match s.st with
          | .first_name =>
              ({ g with sessions := upd g.sessions u (some (reg_first_name s text)) }, [])
          | .last_name =>
              ({ g with sessions := upd g.sessions u (some (reg_last_name s text)) }, [])
          | .school_cls =>
              ({ g with sessions := upd g.sessions u (some (reg_class s text)) }, [])
          | .email =>
              ({ g with sessions := upd g.sessions u (some (reg_email s text).1) }, [])
          | .confirm => (g, [])
  | .editCb u t =>
      match g.sessions u with
      | some s =>
          if s.st = .confirm then
            let s' :=
              match t with
              | .first => edit_first s
              | .last => edit_last s
              | .cls => edit_cls s
              | .email => edit_email s
            ({ g with sessions := upd g.sessions u (some s') }, [])
          else (g, [])
      | none => (g, [])
  | .confirmCb u =>
      match g.sessions u with
      | some s =>
          if s.st = .confirm then
            let r := confirm_handler g.profiles g.pending s u now
            let sessions' := upd g.sessions u r.session
            match r.outcome with
            | .registered (some c) =>
                ({ profiles := r.profiles, pending := r.pending, sessions := sessions',
                   muted := upd g.muted (c, u) false }, [.unlock c u])
            | _ =>
                ({ profiles := r.profiles, pending := r.pending, sessions := sessions',
                   muted := g.muted }, [])
          else (g, [])
      | none => (g, [])
  | .whoCmd _ _ => (g, [])
  | .removeCmd caller target =>
      ({ g with profiles := (remove_cmd admins caller target g.profiles).2 }, [])

/-- Invariant relating registration and sessions: a registered user has no
active form session (the session is cleared exactly when the profile is
written, and `/start` never opens a session for a registered user). -/
def RegInv (g : GState) : Prop :=
  ∀ u, is_registered g.profiles u = true → g.sessions u = none

/-- Concrete scenario for claim C1: user 1 already owns `x@fizmat.kz`. -/
def c1Existing : Profile :=
  ⟨1, strN "Aigerim", strN "S", strN "11A", some (strN "x@fizmat.kz"), 0⟩

/-- Concrete scenario for claim C1: user 2 confirms with the same e-mail. -/
def c1Session : Session :=
  ⟨.confirm, ⟨some (strN "Ivan"), some (strN "Petrov"), some (strN "10B"),
    some (strN "x@fizmat.kz")⟩⟩

/-- Result of user 2 confirming against user 1's e-mail. -/
def c1Result : ConfirmResult := confirm_handler [c1Existing] [] c1Session 2 5

/-- Concrete session in the `confirm` state used by claims C2 and C8. -/
def c2Session : Session :=
  ⟨.confirm, ⟨some (strN "Ivan"), some (strN "Petrov"), some (strN "10B"),
    some (strN "ivan.petrov@fizmat.kz")⟩⟩

/-- Concrete pending table: user 100 is pending in chats -500 and -600
(the -600 entry is the most recent), user 200 is pending in chat -500. -/
def c2Pending : List PendingEntry := [⟨100, -500, 1⟩, ⟨100, -600, 2⟩, ⟨200, -500, 3⟩]

/-- Sample stored profile used by claim C5. -/
def sampleProfile : Profile :=
  ⟨7, strN "Ali", strN "Z", strN "10A", some (strN "ali@fizmat.kz"), 1⟩

/-- Initial global state of the C6 scenario: an unregistered user 100 is
pending (and muted) in chats -500 (older entry) and -600 (newer entry). -/
def c6Start : GState :=
  ⟨[], [⟨100, -500, 1⟩, ⟨100, -600, 2⟩], fun _ => none,
    fun x => decide (x = ((-500 : Int), (100 : Int)) ∨ x = ((-600 : Int), (100 : Int)))⟩

/-- C6 trace: user 100 sends `/start` in a DM. -/
def c6g1 : GState := (step [] c6Start (.startCmd 100 none) 3).1

/-- C6 trace: user 100 enters the first name. -/
def c6g2 : GState := (step [] c6g1 (.dmText 100 (strN "Ivan")) 4).1

/-- C6 trace: user 100 enters the last name. -/
def c6g3 : GState := (step [] c6g2 (.dmText 100 (strN "Petrov")) 5).1

/-- C6 trace: user 100 enters the class. -/
def c6g4 : GState := (step [] c6g3 (.dmText 100 (strN "10B")) 6).1

/-- C6 trace: user 100 enters the e-mail. -/
def c6g5 : GState := (step [] c6g4 (.dmText 100 (strN "ivan.petrov@fizmat.kz")) 7).1

/-- C6 trace: user 100 presses the confirm button at time 9. -/
def c6Final : GState × List Action := step [] c6g5 (.confirmCb 100) 9

/-- The profile the C6 scenario is expected to store. -/
def c6Profile : Profile :=
  ⟨100, strN "Ivan", strN "Petrov", strN "10B", some (strN "ivan.petrov@fizmat.kz"), 9⟩

/-- Concrete session for the C8 counterexample. -/
def c8Start : Session :=
  ⟨.confirm, ⟨some (strN "Anna"), some (strN "Kim"), some (strN "9A"),
    some (strN "anna.kim@fizmat.kz")⟩⟩

/-- C8 counterexample trace: from `confirm`, press the edit-first-name
button and run forward through the linear flow to `confirm` again,
entering different values on the way. -/
def c8Final : Session :=
  (reg_email
    (reg_class
      (reg_last_name
        (reg_first_name (edit_first c8Start) (strN "Dana"))
        (strN "Lee"))
      (strN "10C"))
    (strN "dana.lee@fizmat.kz")).1

/-- Concrete global state for the C9 witness: user 1 is registered, has a
pending entry for chat -42, and no session. -/
def c9State : GState :=
  ⟨[⟨1, strN "A", strN "B", strN "9A", some (strN "a@fizmat.kz"), 0⟩],
    [⟨1, -42, 5⟩], fun _ => none, fun x => decide (x = ((-42 : Int), (1 : Int)))⟩

section StringLemmas

/-- Lowercasing preserves membership in the local-part character class. -/
theorem isLocalChar_pyLower (n : Nat) : isLocalChar (pyLower n) = isLocalChar n := by
  unfold pyLower
  by_cases h : 65 ≤ n ∧ n ≤ 90
  · rw [if_pos h]
    unfold isLocalChar
    rw [decide_eq_decide]
    omega
  · rw [if_neg h]

/-- Lowercasing is idempotent. -/
theorem pyLower_pyLower (n : Nat) : pyLower (pyLower n) = pyLower n := by
  by_cases h : 65 ≤ n ∧ n ≤ 90
  · have h1 : pyLower n = n + 32 := by unfold pyLower; rw [if_pos h]
    rw [h1]; unfold pyLower; rw [if_neg (by omega)]
  · have h1 : pyLower n = n := by unfold pyLower; rw [if_neg h]
    rw [h1, h1]

/-- Lowercasing does not create or destroy whitespace. -/
theorem isPySpace_pyLower (n : Nat) : isPySpace (pyLower n) = isPySpace n := by
  unfold pyLower
  by_cases h : 65 ≤ n ∧ n ≤ 90
  · rw [if_pos h]
    unfold isPySpace
    rw [decide_eq_decide]
    omega
  · rw [if_neg h]

theorem pyLowerStr_idem (l : Str) : pyLowerStr (pyLowerStr l) = pyLowerStr l := by
  induction l with
  | nil => rfl
  | cons a l ih =>
    simp only [pyLowerStr, List.map_cons, pyLower_pyLower] at ih ⊢
    rw [ih]

theorem takeWhile_pyLowerStr (l : Str) :
    (pyLowerStr l).takeWhile isLocalChar = pyLowerStr (l.takeWhile isLocalChar) := by
  induction l with
  | nil => rfl
  | cons a l ih =>
    simp only [pyLowerStr, List.map_cons, List.takeWhile_cons, isLocalChar_pyLower]
    by_cases h : isLocalChar a = true
    · simp only [h, if_true, List.map_cons]
      simpa [pyLowerStr] using ih
    · simp [h]

theorem dropWhile_pyLowerStr (l : Str) :
    (pyLowerStr l).dropWhile isLocalChar = pyLowerStr (l.dropWhile isLocalChar) := by
  induction l with
  | nil => rfl
  | cons a l ih =>
    simp only [pyLowerStr, List.map_cons, List.dropWhile_cons, isLocalChar_pyLower]
    by_cases h : isLocalChar a = true
    · simp only [h, if_true]
      simpa [pyLowerStr] using ih
    · simp [h]

theorem takeWhile_all {p : Nat → Bool} :
    ∀ l : Str, ∀ a ∈ l.takeWhile p, p a = true := by
  intro l
  induction l with
  | nil => intro a h; simp [List.takeWhile] at h
  | cons b l ih =>
    intro a h
    rw [List.takeWhile_cons] at h
    by_cases hb : p b = true
    · simp [hb] at h
      rcases h with h | h
      · exact h ▸ hb
      · exact ih a h
    · simp [Bool.of_not_eq_true hb] at h

theorem takeWhile_append_all {p : Nat → Bool} (l1 l2 : Str)
    (h1 : ∀ a ∈ l1, p a = true) :
    (l1 ++ l2).takeWhile p = l1 ++ l2.takeWhile p := by
  induction l1 with
  | nil => simp
  | cons a l ih =>
    have ha : p a = true := h1 a (List.mem_cons_self a l)
    simp only [List.cons_append, List.takeWhile_cons, ha, if_true]
    simp [ih fun b hb => h1 b (List.mem_cons_of_mem a hb)]

theorem dropWhile_append_all {p : Nat → Bool} (l1 l2 : Str)
    (h1 : ∀ a ∈ l1, p a = true) :
    (l1 ++ l2).dropWhile p = l2.dropWhile p := by
  induction l1 with
  | nil => simp
  | cons a l ih =>
    have ha : p a = true := h1 a (List.mem_cons_self a l)
    simp only [List.cons_append, List.dropWhile_cons, ha, if_true]
    exact ih fun b hb => h1 b (List.mem_cons_of_mem a hb)

theorem dropWhile_idem {p : Nat → Bool} (l : Str) :
    (l.dropWhile p).dropWhile p = l.dropWhile p := by
  induction l with
  | nil => rfl
  | cons a l ih =>
    rw [List.dropWhile_cons]
    by_cases h : p a = true
    · simpa [h] using ih
    · simp [h]

theorem dropWhile_pySpace_pyLowerStr (l : Str) :
    (pyLowerStr l).dropWhile isPySpace = pyLowerStr (l.dropWhile isPySpace) := by
  induction l with
  | nil => rfl
  | cons a l ih =>
    simp only [pyLowerStr, List.map_cons, List.dropWhile_cons, isPySpace_pyLower]
    by_cases h : isPySpace a = true
    · simp only [h, if_true]
      simpa [pyLowerStr] using ih
    · simp [h]

theorem length_dropWhile_le {p : Nat → Bool} : ∀ l : Str, (l.dropWhile p).length ≤ l.length := by
  intro l
  induction l with
  | nil => simp
  | cons a l ih =>
    rw [List.dropWhile_cons]
    by_cases h : p a = true
    · simp only [h, if_true]
      exact Nat.le_trans ih (Nat.le_succ _)
    · simp [h]

theorem pyStrip_eq (l : Str) : pyStrip l = rstrip (l.dropWhile isPySpace) := rfl

/-- Decomposition of a list into its right-stripped part and the stripped tail. -/
theorem rstrip_append (l : Str) :
    l = rstrip l ++ (l.reverse.takeWhile isPySpace).reverse := by
  conv_lhs => rw [← List.reverse_reverse l, ← List.takeWhile_append_dropWhile
    (p := isPySpace) (l := l.reverse)]
  rw [List.reverse_append, rstrip]

/-- A list with no leading whitespace still has none after right-stripping. -/
theorem dropWhile_rstrip (l : Str) (h : l.dropWhile isPySpace = l) :
    (rstrip l).dropWhile isPySpace = rstrip l := by
  rcases hr : rstrip l with _ | ⟨a, rest⟩
  · rfl
  · have hdec := rstrip_append l
    rw [hr] at hdec
    have hpa : isPySpace a = false := by
      by_contra hpa
      have hpa' : isPySpace a = true := by
        cases hap : isPySpace a
        · exact absurd hap hpa
        · rfl
      rw [hdec, List.cons_append, List.dropWhile_cons, hpa', if_pos rfl] at h
      have hlen := length_dropWhile_le
        (p := isPySpace) (rest ++ (l.reverse.takeWhile isPySpace).reverse)
      rw [h] at hlen
      simp at hlen
    rw [List.dropWhile_cons, hpa]
    simp

theorem rstrip_idem (l : Str) : rstrip (rstrip l) = rstrip l := by
  unfold rstrip
  rw [List.reverse_reverse, dropWhile_idem]

theorem pyStrip_idem (l : Str) : pyStrip (pyStrip l) = pyStrip l := by
  rw [pyStrip_eq, pyStrip_eq]
  have h1 : (rstrip (l.dropWhile isPySpace)).dropWhile isPySpace
      = rstrip (l.dropWhile isPySpace) :=
    dropWhile_rstrip _ (dropWhile_idem l)
  rw [h1, rstrip_idem]

theorem pyLowerStr_reverse (l : Str) : (pyLowerStr l).reverse = pyLowerStr l.reverse := by
  simp [pyLowerStr]

theorem pyStrip_pyLowerStr (l : Str) :
    pyStrip (pyLowerStr l) = pyLowerStr (pyStrip l) := by
  unfold pyStrip
  rw [dropWhile_pySpace_pyLowerStr, pyLowerStr_reverse, dropWhile_pySpace_pyLowerStr,
    pyLowerStr_reverse]

theorem pyNormalizeEmail_idem (s : Str) :
    pyNormalizeEmail (pyNormalizeEmail s) = pyNormalizeEmail s := by
  unfold pyNormalizeEmail
  rw [pyStrip_pyLowerStr, pyLowerStr_idem, pyStrip_idem]

/-- Running the validator on an already-normalised e-mail gives the same
verdict as running it on the raw input: normalisation is idempotent and
the empty-string guard agrees on both. -/
theorem is_valid_fizmat_email_normalize (s : Str) :
    is_valid_fizmat_email (pyNormalizeEmail s) = is_valid_fizmat_email s := by
  unfold is_valid_fizmat_email
  by_cases hs : s = []
  · subst hs; rfl
  · rw [if_neg hs]
    by_cases hn : pyNormalizeEmail s = []
    · rw [if_pos hn, hn]
      rfl
    · rw [if_neg hn, pyNormalizeEmail_idem]

end StringLemmas

section EmailSpec

theorem fizmatRegexMatch_eq_true_iff (l : Str) :
    fizmatRegexMatch l = true ↔
      l.takeWhile isLocalChar ≠ [] ∧
      pyLowerStr (l.dropWhile isLocalChar) = fizmatDomain := by
  unfold fizmatRegexMatch
  rw [Bool.and_eq_true, decide_eq_true_eq, decide_eq_true_eq]

theorem pyLowerStr_ne_nil (l : Str) (h : l ≠ []) : pyLowerStr l ≠ [] := by
  cases l with
  | nil => exact absurd rfl h
  | cons a l => simp [pyLowerStr]

/-- The validator agrees with the spec's description of e-mail validation
(claim C3): it accepts exactly the strings whose trimmed form matches
`local@fizmat.kz` case-insensitively with a nonempty local part over
letters, digits and `. _ % + -`. -/
theorem is_valid_fizmat_email_iff_spec (s : Str) :
    is_valid_fizmat_email s = true ↔ emailSpecAccepts s := by
  constructor
  · intro h
    unfold is_valid_fizmat_email at h
    by_cases hs : s = []
    · rw [if_pos hs] at h; exact absurd h (by simp)
    · rw [if_neg hs] at h
      rw [fizmatRegexMatch_eq_true_iff] at h
      obtain ⟨hne, hdom⟩ := h
      rw [pyNormalizeEmail] at hne hdom
      rw [takeWhile_pyLowerStr] at hne
      rw [dropWhile_pyLowerStr, pyLowerStr_idem] at hdom
      refine ⟨(pyStrip s).takeWhile isLocalChar, (pyStrip s).dropWhile isLocalChar,
        (List.takeWhile_append_dropWhile isLocalChar (pyStrip s)).symm, ?_, ?_, hdom⟩
      · intro hcon
        rw [hcon] at hne
        exact hne rfl
      · exact fun c hc => takeWhile_all (pyStrip s) c hc
  · rintro ⟨loc, rest, hsplit, hne, hall, hdom⟩
    have hs : s ≠ [] := by
      intro hcon
      subst hcon
      rw [show pyStrip [] = [] from rfl] at hsplit
      have : loc = [] := by
        cases loc with
        | nil => rfl
        | cons a l => simp at hsplit
      exact hne this
    unfold is_valid_fizmat_email
    rw [if_neg hs, fizmatRegexMatch_eq_true_iff]
    have hlow : pyNormalizeEmail s = pyLowerStr loc ++ fizmatDomain := by
      unfold pyNormalizeEmail
      rw [hsplit]
      unfold pyLowerStr
      rw [List.map_append]
      rw [show (rest.map pyLower) = fizmatDomain from hdom]
    have halllow : ∀ a ∈ pyLowerStr loc, isLocalChar a = true := by
      intro a ha
      obtain ⟨b, hb, rfl⟩ := List.mem_map.mp ha
      rw [isLocalChar_pyLower]
      exact hall b hb
    constructor
    · rw [hlow, takeWhile_append_all _ _ halllow]
      have : fizmatDomain.takeWhile isLocalChar = [] := by decide
      rw [this, List.append_nil]
      exact pyLowerStr_ne_nil loc hne
    · rw [hlow, dropWhile_append_all _ _ halllow]
      have h1 : fizmatDomain.dropWhile isLocalChar = fizmatDomain := by decide
      rw [h1]
      decide

end EmailSpec

section StoreLemmas

theorem upd_self {α β : Type} [DecidableEq α] (f : α → β) (k : α) (v : β) :
    upd f k v k = v := by
  simp [upd]

theorem upd_ne {α β : Type} [DecidableEq α] (f : α → β) (k : α) (v : β)
    (x : α) (h : x ≠ k) : upd f k v x = f x := by
  simp [upd, h]

theorem pickLatest_cons (a : PendingEntry) (l : List PendingEntry) :
    pickLatest (a :: l) =
      match pickLatest l with
      | none => some a
      | some q => if a.created_at < q.created_at then some q else some a := rfl

theorem pickLatest_eq_none {l : List PendingEntry} :
    pickLatest l = none ↔ l = [] := by
  cases l with
  | nil => simp [pickLatest]
  | cons a l =>
    rw [pickLatest_cons]
    cases hq : pickLatest l with
    | none => simp
    | some q =>
      by_cases hc : a.created_at < q.created_at
      · simp [hc]
      · simp [hc]

theorem pickLatest_mem : ∀ {l : List PendingEntry} {p : PendingEntry},
    pickLatest l = some p → p ∈ l := by
  intro l
  induction l with
  | nil => intro p h; simp [pickLatest] at h
  | cons a l ih =>
    intro p h
    rw [pickLatest_cons] at h
    cases hq : pickLatest l with
    | none =>
        simp only [hq] at h
        simp at h
        simp [h]
    | some q =>
        simp only [hq] at h
        by_cases hc : a.created_at < q.created_at
        · rw [if_pos hc] at h
          simp at h
          subst h
          exact List.mem_cons_of_mem a (ih hq)
        · rw [if_neg hc] at h
          simp at h
          simp [h]

theorem pickLatest_ge : ∀ {l : List PendingEntry} {p : PendingEntry},
    pickLatest l = some p → ∀ q ∈ l, q.created_at ≤ p.created_at := by
  intro l
  induction l with
  | nil => intro p _ q hq; simp at hq
  | cons a l ih =>
    intro p h q hq
    rw [pickLatest_cons] at h
    cases hr : pickLatest l with
    | none =>
        simp only [hr] at h
        simp at h
        rw [pickLatest_eq_none] at hr
        subst hr
        simp at hq
        subst hq
        subst h
        exact Nat.le_refl _
    | some r =>
        simp only [hr] at h
        rcases List.mem_cons.mp hq with hqa | hql
        · subst hqa
          by_cases hc : q.created_at < r.created_at
          · rw [if_pos hc] at h
            simp at h
            subst h
            exact Nat.le_of_lt hc
          · rw [if_neg hc] at h
            simp at h
            subst h
            exact Nat.le_refl _
        · have hle := ih hr q hql
          by_cases hc : a.created_at < r.created_at
          · rw [if_pos hc] at h
            simp at h
            subst h
            exact hle
          · rw [if_neg hc] at h
            simp at h
            subst h
            exact Nat.le_trans hle (Nat.le_of_not_lt hc)

/-- A strictly most-recent entry is the one `ORDER BY created_at DESC
LIMIT 1` picks. -/
theorem pickLatest_strictmax {l : List PendingEntry} {q : PendingEntry}
    (hq : q ∈ l) (hmax : ∀ r ∈ l, r ≠ q → r.created_at < q.created_at) :
    pickLatest l = some q := by
  cases hl : pickLatest l with
  | none =>
      rw [pickLatest_eq_none] at hl
      subst hl
      simp at hq
  | some p =>
      have hp := pickLatest_mem hl
      by_cases hpq : p = q
      · rw [hpq]
      · have h1 := pickLatest_ge hl q hq
        have h2 := hmax p hp hpq
        exfalso
        omega

theorem filter_eq_self_of_all {α : Type} (P : α → Bool) (l : List α)
    (h : ∀ a ∈ l, P a = true) : l.filter P = l :=
  List.filter_eq_self.mpr h

/-- Filtering out exactly one occurrence shortens the list by one. -/
theorem length_filter_remove_one (P : PendingEntry → Bool) :
    ∀ (l : List PendingEntry) (q : PendingEntry), l.Nodup → q ∈ l → P q = false →
    (∀ r ∈ l, r ≠ q → P r = true) →
    (l.filter P).length + 1 = l.length := by
  intro l
  induction l with
  | nil => intro q _ hq _ _; simp at hq
  | cons a l ih =>
    intro q hnd hq hqP hot
    rcases List.mem_cons.mp hq with hqa | hql
    · subst hqa
      rw [List.filter_cons_of_neg (by simp [hqP])]
      have hall : ∀ r ∈ l, P r = true := by
        intro r hr
        have hne : r ≠ q := by
          intro hcon
          subst hcon
          exact (List.nodup_cons.mp hnd).1 hr
        exact hot r (List.mem_cons_of_mem q hr) hne
      rw [filter_eq_self_of_all P l hall]
      simp
    · have hne : a ≠ q := by
        intro hcon
        subst hcon
        exact (List.nodup_cons.mp hnd).1 hql
      rw [List.filter_cons_of_pos (by simp [hot a (List.mem_cons_self a l) hne])]
      have hrec := ih q (List.nodup_cons.mp hnd).2 hql hqP
        (fun r hr hrq => hot r (List.mem_cons_of_mem a hr) hrq)
      simp only [List.length_cons]
      omega

theorem find?_upsertProfile (store : List Profile) (p : Profile) :
    (upsertProfile store p).find? (fun q => decide (q.user_id = p.user_id)) = some p := by
  induction store with
  | nil => simp [upsertProfile, List.find?]
  | cons a store ih =>
    unfold upsertProfile
    by_cases h : a.user_id = p.user_id
    · rw [if_pos h]
      simp [List.find?]
    · rw [if_neg h]
      rw [List.find?_cons_of_neg _ (by simp [h])]
      exact ih

theorem mem_upsertProfile {store : List Profile} {p q : Profile}
    (h : q ∈ upsertProfile store p) : q ∈ store ∨ q = p := by
  induction store with
  | nil =>
      simp [upsertProfile] at h
      exact Or.inr h
  | cons a store ih =>
    unfold upsertProfile at h
    by_cases ha : a.user_id = p.user_id
    · rw [if_pos ha] at h
      rcases List.mem_cons.mp h with h | h
      · exact Or.inr h
      · exact Or.inl (List.mem_cons_of_mem a h)
    · rw [if_neg ha] at h
      rcases List.mem_cons.mp h with h | h
      · exact Or.inl (h ▸ List.mem_cons_self a store)
      · rcases ih h with h | h
        · exact Or.inl (List.mem_cons_of_mem a h)
        · exact Or.inr h

/-- Inversion of a successful `save_profile`: both guards were passed and
the result is the upsert of the normalised row. -/
theorem save_profile_ok_inv {store : List Profile} {uid : Int} {fn ln cls em : Str}
    {now : Nat} {store' : List Profile}
    (h : save_profile store uid fn ln cls em now = .ok store') :
    is_valid_fizmat_email (pyNormalizeEmail em) = true ∧
    ¬ (∃ p ∈ store, p.user_id ≠ uid ∧ p.email = some (pyNormalizeEmail em)) ∧
    store' = upsertProfile store
      ⟨uid, pyStrip fn, pyStrip ln, pyStrip cls, some (pyNormalizeEmail em), now⟩ := by
  unfold save_profile at h
  by_cases h1 : is_valid_fizmat_email (pyNormalizeEmail em) = false
  · rw [if_pos h1] at h
    simp at h
  · rw [if_neg h1] at h
    by_cases h2 : ∃ p ∈ store, p.user_id ≠ uid ∧ p.email = some (pyNormalizeEmail em)
    · rw [if_pos h2] at h
      simp at h
    · rw [if_neg h2] at h
      simp at h
      exact ⟨eq_true_of_ne_false h1, h2, h.symm⟩

/-- Evaluation of `save_profile` when the e-mail is valid but owned by
another user's row: the unique index fires. -/
theorem save_profile_conflict {store : List Profile} {uid : Int} {fn ln cls em : Str}
    {now : Nat}
    (hvalid : is_valid_fizmat_email (pyNormalizeEmail em) = true)
    (hconf : ∃ p ∈ store, p.user_id ≠ uid ∧ p.email = some (pyNormalizeEmail em)) :
    save_profile store uid fn ln cls em now = .error .uniqueEmailViolation := by
  unfold save_profile
  rw [if_neg (by simp [hvalid]), if_pos hconf]

end StoreLemmas

section ClaimTheorems

/-- Claim C7: for every session in the `email` step and every input that
fails domain validation, `reg_email` answers with a re-prompt, leaves the
session in the `email` state and leaves every accumulated field value
unchanged (the handler returns normally, it never raises). -/
theorem reg_email_invalid_input_reprompts (s : Session) (text : Str)
    (_hst : s.st = RegState.email)
    (hinvalid : is_valid_fizmat_email text = false) :
    reg_email s text = (s, EmailStepOutcome.reprompted) := by
  unfold reg_email
  simp [is_valid_fizmat_email_normalize, hinvalid]

/-- Witness for C7: the spec's own example `ivan@gmail.com` is rejected
and the session (state `email`, three fields collected) is untouched. -/
theorem reg_email_invalid_input_reprompts_witness :
    reg_email ⟨RegState.email, ⟨some (strN "Ivan"), some (strN "Petrov"),
        some (strN "10B"), none⟩⟩ (strN "ivan@gmail.com") =
      (⟨RegState.email, ⟨some (strN "Ivan"), some (strN "Petrov"),
        some (strN "10B"), none⟩⟩, EmailStepOutcome.reprompted) :=
  reg_email_invalid_input_reprompts _ _ rfl (by decide)

/-- Counterexample to claim C1 as stated: with user 1 already owning
`x@fizmat.kz`, user 2 confirming a session that carries the same e-mail
does fail and does leave the stored profile unchanged, but the failure is
the `IntegrityError` of the unique index, which the `confirm` handler does
not catch (it catches only `ValueError`): no re-prompt happens and the
session stays in the `confirm` state instead of being reset to `email`. -/
theorem confirm_duplicate_email_cex :
    c1Result.outcome = ConfirmOutcome.uncaught SaveError.uniqueEmailViolation ∧
    c1Result.profiles = [c1Existing] ∧
    c1Result.session = some c1Session ∧
    Option.map Session.st c1Result.session = some RegState.confirm ∧
    ¬ Option.map Session.st c1Result.session = some RegState.email := by
  decide

/-- Claim C1 (amended): confirming a session whose e-mail already belongs
to another user's stored profile fails and leaves the profile store (and
the pending table) unchanged; but the failure is an uncaught
`IntegrityError`, not the caught `ValueError` — the handler re-prompts
only on domain-validation failures, so here the session is left in its
current state rather than being moved back to the `email` step. -/
theorem confirm_duplicate_email_uncaught
    (store : List Profile) (ps : List PendingEntry) (s : Session) (uid : Int)
    (now : Nat) (p : Profile)
    (hp : p ∈ store) (hpu : p.user_id ≠ uid)
    (hpe : p.email = some (pyNormalizeEmail (getField s.data.email)))
    (hvalid : is_valid_fizmat_email (getField s.data.email) = true) :
    (confirm_handler store ps s uid now).profiles = store ∧
    (confirm_handler store ps s uid now).pending = ps ∧
    (confirm_handler store ps s uid now).session = some s ∧
    (confirm_handler store ps s uid now).outcome =
      ConfirmOutcome.uncaught SaveError.uniqueEmailViolation := by
  have hsave : save_profile store uid (getField s.data.first_name)
      (getField s.data.last_name) (getField s.data.school_cls)
      (getField s.data.email) now = .error .uniqueEmailViolation := by
    apply save_profile_conflict
    · rw [is_valid_fizmat_email_normalize]
      exact hvalid
    · exact ⟨p, hp, hpu, hpe⟩
  unfold confirm_handler
  rw [hsave]
  exact ⟨rfl, rfl, rfl, rfl⟩

/-- Witness for the amended C1 at the concrete duplicate-e-mail input. -/
theorem confirm_duplicate_email_uncaught_witness :
    (confirm_handler [c1Existing] [] c1Session 2 5).profiles = [c1Existing] ∧
    (confirm_handler [c1Existing] [] c1Session 2 5).outcome =
      ConfirmOutcome.uncaught SaveError.uniqueEmailViolation := by
  have h := confirm_duplicate_email_uncaught [c1Existing] [] c1Session 2 5
    c1Existing (by decide) (by decide) (by decide) (by decide)
  exact ⟨h.1, h.2.2.2⟩

/-- Counterexample to claim C5 as stated: `/export` never consults the
operator allow-list.  With allow-list `{42}`, the caller 7 is outside it,
yet `/export` in a private chat happily exports every profile. -/
theorem export_ignores_allowlist_cex :
    (7 : Int) ∉ ([42] : List Int) ∧
    export_csv [42] 7 true false [sampleProfile] =
      ExportOutcome.exported [sampleProfile] := by
  decide

/-- Claim C5 (amended): `/who` and `/remove` refuse a caller outside a
nonempty allow-list and leave the profile store unchanged; `/export` is
not gated by the allow-list at all — it refuses only when invoked in a
group chat by a non-chat-administrator (and always proceeds in a private
chat); with an empty allow-list `/who` and `/remove` are open to
everybody. -/
theorem admin_commands_gating
    (admins : List Int) (caller : Int) (arg : Option Int) (store : List Profile)
    (hne : admins ≠ []) (hout : caller ∉ admins) :
    who_cmd_private admins caller arg store = WhoOutcome.refused ∧
    remove_cmd admins caller arg store = (RemoveOutcome.refused, store) ∧
    export_csv admins caller false false store = ExportOutcome.refused := by
  refine ⟨?_, ?_, ?_⟩
  · unfold who_cmd_private
    rw [if_pos ⟨hne, hout⟩]
  · unfold remove_cmd
    rw [if_pos ⟨hne, hout⟩]
  · unfold export_csv
    rw [if_pos ⟨rfl, rfl⟩]

/-- Witness for the amended C5: caller 7 against allow-list `{42}`. -/
theorem admin_commands_gating_witness :
    who_cmd_private [42] 7 (some 7) [sampleProfile] = WhoOutcome.refused ∧
    remove_cmd [42] 7 (some 7) [sampleProfile] =
      (RemoveOutcome.refused, [sampleProfile]) := by
  have h := admin_commands_gating [42] 7 (some 7) [sampleProfile]
    (by decide) (by decide)
  exact ⟨h.1, h.2.1⟩

/-- Claim C6 (amended): the input sequence Ivan / Petrov / 10B /
ivan.petrov@fizmat.kz followed by confirm stores a profile with exactly
those four field values and the current timestamp, clears the session,
and consumes the most recently created pending entry — chat -600 — which
is unlocked; the older pending chat -500 stays pending and muted. -/
theorem registration_happy_path :
    c6Final.1.profiles = [c6Profile] ∧
    c6Final.2 = [Action.unlock (-600) 100] ∧
    c6Final.1.muted (-600, 100) = false ∧
    c6Final.1.pending = [⟨100, -500, 1⟩] ∧
    c6Final.1.sessions 100 = none := by
  decide

/-- Counterexample to claim C6 as stated: the claim's "every pending chat
recorded for that user transitions from muted to unmuted" fails when the
user has two pending chats — after the successful confirmation of the C6
input sequence, chat -500 is still pending and still muted. -/
theorem registration_not_all_chats_unmuted_cex :
    c6Final.1.profiles = [c6Profile] ∧
    ¬ (∀ pe ∈ c6Start.pending, c6Final.1.muted (pe.chat_id, pe.user_id) = false) ∧
    c6Final.1.muted (-500, 100) = true ∧
    (⟨100, -500, 1⟩ : PendingEntry) ∈ c6Final.1.pending := by
  decide

/-- Counterexample to claim C8 as stated: from `confirm`, pressing the
edit-first-name button itself preserves all collected data, but the flow
then continues linearly through last name, class and e-mail, so reaching
`confirm` again re-collects those fields: with new inputs along the way
the last name differs from the originally collected one. -/
theorem edit_first_roundtrip_cex :
    (edit_first c8Start).data = c8Start.data ∧
    c8Final.st = RegState.confirm ∧
    ¬ c8Final.data.last_name = c8Start.data.last_name := by
  decide

/-- Claim C8 (amended): each of the four edit callbacks re-enters the
corresponding field state and leaves every collected value unchanged;
because the form then advances linearly, only the e-mail edit returns
directly to `confirm`, preserving the other three values — editing an
earlier field re-collects all the fields after it. -/
theorem edit_callbacks_preserve_data
    (s : Session) (text : Str)
    (_hst : s.st = RegState.confirm)
    (hvalid : is_valid_fizmat_email text = true) :
    ((edit_first s).data = s.data ∧ (edit_first s).st = RegState.first_name) ∧
    ((edit_last s).data = s.data ∧ (edit_last s).st = RegState.last_name) ∧
    ((edit_cls s).data = s.data ∧ (edit_cls s).st = RegState.school_cls) ∧
    ((edit_email s).data = s.data ∧ (edit_email s).st = RegState.email) ∧
    ((reg_email (edit_email s) text).1.st = RegState.confirm ∧
     (reg_email (edit_email s) text).1.data.first_name = s.data.first_name ∧
     (reg_email (edit_email s) text).1.data.last_name = s.data.last_name ∧
     (reg_email (edit_email s) text).1.data.school_cls = s.data.school_cls) := by
  refine ⟨⟨rfl, rfl⟩, ⟨rfl, rfl⟩, ⟨rfl, rfl⟩, ⟨rfl, rfl⟩, ?_, ?_, ?_, ?_⟩ <;>
    simp [reg_email, edit_email, is_valid_fizmat_email_normalize, hvalid]

/-- Witness for the amended C8: re-entering only the e-mail from the C8
session keeps the other three collected values. -/
theorem edit_callbacks_preserve_data_witness :
    (reg_email (edit_email c8Start) (strN "dana.lee@fizmat.kz")).1.st =
      RegState.confirm ∧
    (reg_email (edit_email c8Start) (strN "dana.lee@fizmat.kz")).1.data.first_name =
      c8Start.data.first_name ∧
    (reg_email (edit_email c8Start) (strN "dana.lee@fizmat.kz")).1.data.last_name =
      c8Start.data.last_name := by
  have h := edit_callbacks_preserve_data c8Start (strN "dana.lee@fizmat.kz")
    rfl (by decide)
  exact ⟨h.2.2.2.2.1, h.2.2.2.2.2.1, h.2.2.2.2.2.2.1⟩

/-- Evaluation of `save_profile` when the e-mail is valid and no other
user owns it: the normalised row is upserted. -/
theorem save_profile_ok_eval {store : List Profile} {uid : Int} {fn ln cls em : Str}
    {now : Nat}
    (hvalid : is_valid_fizmat_email (pyNormalizeEmail em) = true)
    (hnoconf : ¬ ∃ p ∈ store, p.user_id ≠ uid ∧ p.email = some (pyNormalizeEmail em)) :
    save_profile store uid fn ln cls em now =
      .ok (upsertProfile store
        ⟨uid, pyStrip fn, pyStrip ln, pyStrip cls, some (pyNormalizeEmail em), now⟩) := by
  unfold save_profile
  rw [if_neg (by simp [hvalid]), if_neg hnoconf]

theorem filter_swap {α : Type} (p q : α → Bool) (l : List α) :
    (l.filter p).filter q = (l.filter q).filter p := by
  rw [List.filter_filter, List.filter_filter]
  exact List.filter_congr (fun x _ => Bool.and_comm (q x) (p x))

/-- Claim C2: when a user with several pending entries (distinct chats,
distinct creation times) confirms successfully, exactly one pending entry
is consumed — the one with the greatest `created_at` — only that chat is
unlocked, and the other entries all remain in the table. -/
theorem confirm_consumes_latest_pending
    (store : List Profile) (ps : List PendingEntry) (s : Session) (uid : Int)
    (now : Nat) (q : PendingEntry)
    (hvalid : is_valid_fizmat_email (getField s.data.email) = true)
    (hnoconf : ¬ ∃ p ∈ store, p.user_id ≠ uid ∧
        p.email = some (pyNormalizeEmail (getField s.data.email)))
    (hnd : (pendingFor ps uid).Nodup)
    (hq : q ∈ pendingFor ps uid)
    (hmax : ∀ r ∈ pendingFor ps uid, r ≠ q → r.created_at < q.created_at)
    (hchats : ∀ r ∈ pendingFor ps uid, r ≠ q → r.chat_id ≠ q.chat_id)
    (hc0 : q.chat_id ≠ 0) :
    (confirm_handler store ps s uid now).outcome =
      ConfirmOutcome.registered (some q.chat_id) ∧
    (confirm_handler store ps s uid now).session = none ∧
    (confirm_handler store ps s uid now).pending =
      ps.filter (fun r => decide (¬ (r.user_id = uid ∧ r.chat_id = q.chat_id))) ∧
    q ∉ (confirm_handler store ps s uid now).pending ∧
    (∀ r ∈ pendingFor ps uid, r ≠ q →
      r ∈ pendingFor (confirm_handler store ps s uid now).pending uid) ∧
    (pendingFor (confirm_handler store ps s uid now).pending uid).length + 1 =
      (pendingFor ps uid).length := by
  have huid : q.user_id = uid := by
    have hmf := List.mem_filter.mp hq
    simpa using hmf.2
  have hsave := @save_profile_ok_eval store uid
    (getField s.data.first_name) (getField s.data.last_name)
    (getField s.data.school_cls) (getField s.data.email) now
    (by rw [is_valid_fizmat_email_normalize]; exact hvalid) hnoconf
  have hcp : consume_pending ps uid =
      (some q.chat_id,
        ps.filter (fun r => decide (¬ (r.user_id = uid ∧ r.chat_id = q.chat_id)))) := by
    unfold consume_pending
    rw [pickLatest_strictmax hq hmax]
  have hch : confirm_handler store ps s uid now =
      ⟨upsertProfile store
        ⟨uid, pyStrip (getField s.data.first_name), pyStrip (getField s.data.last_name),
          pyStrip (getField s.data.school_cls),
          some (pyNormalizeEmail (getField s.data.email)), now⟩,
       ps.filter (fun r => decide (¬ (r.user_id = uid ∧ r.chat_id = q.chat_id))),
       none, .registered (some q.chat_id)⟩ := by
    unfold confirm_handler
    rw [hsave, hcp]
    simp [hc0]
  have hPq : (fun r : PendingEntry =>
      decide (¬ (r.user_id = uid ∧ r.chat_id = q.chat_id))) q = false := by
    simp [huid]
  have hPother : ∀ r ∈ pendingFor ps uid, r ≠ q →
      (fun r : PendingEntry =>
        decide (¬ (r.user_id = uid ∧ r.chat_id = q.chat_id))) r = true := by
    intro r hr hne
    simp only [decide_eq_true_eq]
    intro hcon
    exact hchats r hr hne hcon.2
  refine ⟨by rw [hch], by rw [hch], by rw [hch], ?_, ?_, ?_⟩
  · rw [hch]
    intro hmem
    have hmf := List.mem_filter.mp hmem
    have h2 := hmf.2
    simp [huid] at h2
  · intro r hr hne
    rw [hch]
    have hrps : r ∈ ps := (List.mem_filter.mp hr).1
    have hru : decide (r.user_id = uid) = true := (List.mem_filter.mp hr).2
    exact List.mem_filter.mpr ⟨List.mem_filter.mpr ⟨hrps, hPother r hr hne⟩, hru⟩
  · rw [hch]
    show (pendingFor (ps.filter _) uid).length + 1 = (pendingFor ps uid).length
    unfold pendingFor
    rw [filter_swap]
    exact length_filter_remove_one _ (ps.filter fun p => decide (p.user_id = uid)) q
      hnd hq hPq hPother

/-- Witness for C2: user 100 has pending entries in chats -500 (older) and
-600 (newer) and confirms; only the -600 entry is consumed. -/
theorem confirm_consumes_latest_pending_witness :
    (confirm_handler [] c2Pending c2Session 100 9).outcome =
      ConfirmOutcome.registered (some (-600)) ∧
    (confirm_handler [] c2Pending c2Session 100 9).pending =
      [⟨100, -500, 1⟩, ⟨200, -500, 3⟩] ∧
    (pendingFor (confirm_handler [] c2Pending c2Session 100 9).pending 100).length + 1 =
      (pendingFor c2Pending 100).length := by
  have h := confirm_consumes_latest_pending [] c2Pending c2Session 100 9
    ⟨100, -600, 2⟩ (by decide) (by decide) (by decide) (by decide)
    (by decide) (by decide) (by decide)
  refine ⟨h.1, ?_, h.2.2.2.2.2⟩
  rw [h.2.2.1]
  decide

/-- Claim C10: a successful `save_profile` stores the stripped first name,
last name and class and the stripped-and-lowercased e-mail (with the given
timestamp); every e-mail a save writes is lowercase, saving preserves
lowercase-ness of the store, and in a store of lowercase e-mails no two
profiles can hold e-mails that differ only in letter case. -/
theorem save_profile_normalizes
    (store : List Profile) (uid : Int) (fn ln cls em : Str) (now : Nat)
    (store' : List Profile)
    (hok : save_profile store uid fn ln cls em now = .ok store') :
    store'.find? (fun q => decide (q.user_id = uid)) =
      some ⟨uid, pyStrip fn, pyStrip ln, pyStrip cls, some (pyNormalizeEmail em), now⟩ ∧
    ((∀ p ∈ store, ∀ e, p.email = some e → pyLowerStr e = e) →
      (∀ p ∈ store', ∀ e, p.email = some e → pyLowerStr e = e)) ∧
    ((∀ p ∈ store', ∀ e, p.email = some e → pyLowerStr e = e) →
      ∀ p ∈ store', ∀ r ∈ store', ∀ e1 e2, p.email = some e1 → r.email = some e2 →
        pyLowerStr e1 = pyLowerStr e2 → e1 = e2) := by
  obtain ⟨hvalid, hnoconf, hstore⟩ := save_profile_ok_inv hok
  refine ⟨?_, ?_, ?_⟩
  · rw [hstore]
    exact find?_upsertProfile store
      ⟨uid, pyStrip fn, pyStrip ln, pyStrip cls, some (pyNormalizeEmail em), now⟩
  · intro hlc p hp e he
    rw [hstore] at hp
    rcases mem_upsertProfile hp with h | h
    · exact hlc p h e he
    · subst h
      simp only at he
      have he' : e = pyNormalizeEmail em := by
        injection he with he''
        exact he''.symm
      subst he'
      unfold pyNormalizeEmail
      exact pyLowerStr_idem _
  · intro hlc p hp r hr e1 e2 he1 he2 hcase
    have h1 := hlc p hp e1 he1
    have h2 := hlc r hr e2 he2
    rw [← h1, ← h2]
    rw [hcase]

/-- Witness for C10: saving user 5 with padded mixed-case input stores the
stripped and lowercased values. -/
theorem save_profile_normalizes_witness :
    ([⟨5, strN "Ivan", strN "Petrov", strN "10B",
        some (strN "ivan.petrov@fizmat.kz"), 3⟩] : List Profile).find?
      (fun q => decide (q.user_id = 5)) =
      some ⟨5, pyStrip (strN " Ivan "), pyStrip (strN "Petrov"), pyStrip (strN "10B"),
        some (pyNormalizeEmail (strN " Ivan.Petrov@FIZMAT.KZ ")), 3⟩ :=
  (save_profile_normalizes [] 5 (strN " Ivan ") (strN "Petrov") (strN "10B")
    (strN " Ivan.Petrov@FIZMAT.KZ ") 3
    [⟨5, strN "Ivan", strN "Petrov", strN "10B",
      some (strN "ivan.petrov@fizmat.kz"), 3⟩] (by rfl)).1

/-- Claim C4: a group notice is emitted exactly when at least 60 seconds
passed since the chat's last notice or the chat's set (with the new user
added) reached 20 members; on emission the set is cleared and the cooldown
timestamp reset to `now`; otherwise both are left pending.  Consequently
two consecutive emissions in a chat are at least 60 seconds apart (the
second step starts from a cleared set, so the 20-user path cannot fire off
a single addition). -/
theorem dm_failed_step_spec (st : ThrottleState) (chat user : Int) (now : Int) :
    ((dm_failed_step st chat user now).2 = true ↔
      (NOTICE_COOLDOWN ≤ now - st.lastNoticeAt chat ∨
        BATCH_THRESHOLD ≤ (addToSet (st.needDm chat) user).length)) ∧
    ((dm_failed_step st chat user now).2 = true →
      (dm_failed_step st chat user now).1.needDm chat = [] ∧
      (dm_failed_step st chat user now).1.lastNoticeAt chat = now) ∧
    ((dm_failed_step st chat user now).2 = false →
      (dm_failed_step st chat user now).1.needDm chat = addToSet (st.needDm chat) user ∧
      (dm_failed_step st chat user now).1.lastNoticeAt chat = st.lastNoticeAt chat) ∧
    (∀ u2 t2, (dm_failed_step st chat user now).2 = true →
      (dm_failed_step (dm_failed_step st chat user now).1 chat u2 t2).2 = true →
      NOTICE_COOLDOWN ≤ t2 - now) := by
  by_cases h : NOTICE_COOLDOWN ≤ now - st.lastNoticeAt chat ∨
      BATCH_THRESHOLD ≤ (addToSet (st.needDm chat) user).length
  · have hstep : dm_failed_step st chat user now =
        (⟨upd st.needDm chat [], upd st.lastNoticeAt chat now⟩, true) := by
      unfold dm_failed_step
      rw [if_pos h]
    rw [hstep]
    refine ⟨by simp [h], fun _ => ⟨upd_self _ _ _, upd_self _ _ _⟩,
      fun hcon => by simp at hcon, ?_⟩
    intro u2 t2 _ h2
    unfold dm_failed_step at h2
    have hempty : (⟨upd st.needDm chat [], upd st.lastNoticeAt chat now⟩ :
        ThrottleState).needDm chat = [] := upd_self _ _ _
    rw [hempty] at h2
    have hlast : (⟨upd st.needDm chat [], upd st.lastNoticeAt chat now⟩ :
        ThrottleState).lastNoticeAt chat = now := upd_self _ _ _
    rw [hlast] at h2
    by_cases h3 : NOTICE_COOLDOWN ≤ t2 - now ∨
        BATCH_THRESHOLD ≤ (addToSet ([] : List Int) u2).length
    · rcases h3 with h3 | h3
      · exact h3
      · exfalso
        have : (addToSet ([] : List Int) u2).length = 1 := by simp [addToSet]
        rw [this] at h3
        exact absurd h3 (by decide)
    · rw [if_neg h3] at h2
      simp at h2
  · have hstep : dm_failed_step st chat user now =
        (⟨upd st.needDm chat (addToSet (st.needDm chat) user), st.lastNoticeAt⟩, false) := by
      unfold dm_failed_step
      rw [if_neg h]
    rw [hstep]
    refine ⟨by simp [h], fun hcon => by simp at hcon,
      fun _ => ⟨upd_self _ _ _, rfl⟩, ?_⟩
    intro u2 t2 hcon
    simp at hcon

/-- Witness for C4: in a fresh chat (timestamp 0) a first failing DM at
time 100 immediately fires a notice, clearing the set and resetting the
timestamp. -/
theorem dm_failed_step_spec_witness :
    (dm_failed_step initialThrottle 1 2 100).2 = true ∧
    (dm_failed_step initialThrottle 1 2 100).1.needDm 1 = [] ∧
    (dm_failed_step initialThrottle 1 2 100).1.lastNoticeAt 1 = 100 := by
  have h := dm_failed_step_spec initialThrottle 1 2 100
  have hf : (dm_failed_step initialThrottle 1 2 100).2 = true :=
    h.1.mpr (Or.inl (by decide))
  exact ⟨hf, (h.2.1 hf).1, (h.2.1 hf).2⟩

/-- Field bookkeeping of the confirm-callback step: whatever the outcome,
the new profiles, pending table and sessions come from `confirm_handler`
(the session map updated pointwise at the confirming user). -/
theorem step_confirmCb_fields (admins : List Int) (g : GState) (v : Int) (now : Nat)
    (s : Session) (hs : g.sessions v = some s) (hst : s.st = RegState.confirm) :
    (step admins g (Event.confirmCb v) now).1.profiles =
      (confirm_handler g.profiles g.pending s v now).profiles ∧
    (step admins g (Event.confirmCb v) now).1.sessions =
      upd g.sessions v (confirm_handler g.profiles g.pending s v now).session ∧
    (step admins g (Event.confirmCb v) now).1.pending =
      (confirm_handler g.profiles g.pending s v now).pending := by
  cases hout : (confirm_handler g.profiles g.pending s v now).outcome with
  | registered o =>
      cases o with
      | none => refine ⟨?_, ?_, ?_⟩ <;> simp [step, hs, hst, hout]
      | some c => refine ⟨?_, ?_, ?_⟩ <;> simp [step, hs, hst, hout]
  | repromptEmail => refine ⟨?_, ?_, ?_⟩ <;> simp [step, hs, hst, hout]
  | uncaught er => refine ⟨?_, ?_, ?_⟩ <;> simp [step, hs, hst, hout]

theorem is_registered_iff {store : List Profile} {u : Int} :
    is_registered store u = true ↔ ∃ p ∈ store, p.user_id = u := by
  simp [is_registered]

/-- Helper: updating the session map at a user who currently has a session
keeps the registered-users-have-no-session invariant intact. -/
theorem regInv_upd_some (g : GState) (hinv : RegInv g) (v : Int) (s : Session)
    (hs : g.sessions v = some s) (ns : Option Session) :
    ∀ u, is_registered g.profiles u = true → upd g.sessions v ns u = none := by
  intro u hreg
  by_cases huv : u = v
  · subst huv
    have hn := hinv u hreg
    rw [hn] at hs
    cases hs
  · rw [upd_ne _ _ _ _ huv]
    exact hinv u hreg

/-- The invariant `RegInv` holds in the empty initial state. -/
theorem regInv_init : RegInv ⟨[], [], fun _ => none, fun _ => false⟩ := by
  intro u h
  simp [is_registered] at h

/-- The invariant `RegInv` is preserved by every dispatch step: a session
is opened only for unregistered users, and the step that registers a user
(successful confirm) clears that user's session. -/
theorem regInv_preserved (admins : List Int) (g : GState) (e : Event) (now : Nat)
    (hinv : RegInv g) : RegInv (step admins g e now).1 := by
  intro u hreg
  cases e with
  | userJoin c v isBot isGroup =>
      have hp : (step admins g (Event.userJoin c v isBot isGroup) now).1.profiles =
          g.profiles ∧
          (step admins g (Event.userJoin c v isBot isGroup) now).1.sessions =
          g.sessions := by
        by_cases h1 : isGroup = false ∨ isBot = true
        · refine ⟨?_, ?_⟩ <;> simp [step, h1]
        · by_cases h2 : is_registered g.profiles v = true
          · refine ⟨?_, ?_⟩ <;> simp [step, h1, h2]
          · refine ⟨?_, ?_⟩ <;> simp [step, h1, h2]
      rw [hp.2]
      rw [hp.1] at hreg
      exact hinv u hreg
  | groupMsg c v =>
      have hp : (step admins g (Event.groupMsg c v) now).1.profiles = g.profiles ∧
          (step admins g (Event.groupMsg c v) now).1.sessions = g.sessions := by
        by_cases h2 : is_registered g.profiles v = true
        · refine ⟨?_, ?_⟩ <;> simp [step, h2]
        · refine ⟨?_, ?_⟩ <;> simp [step, h2]
      rw [hp.2]
      rw [hp.1] at hreg
      exact hinv u hreg
  | startCmd v pl =>
      by_cases h2 : is_registered g.profiles v = true
      · have hp : (step admins g (Event.startCmd v pl) now).1.profiles = g.profiles ∧
            (step admins g (Event.startCmd v pl) now).1.sessions = g.sessions := by
          rcases hcp : consume_pending g.pending v with ⟨o, ps2⟩
          cases o with
          | none => refine ⟨?_, ?_⟩ <;> simp [step, h2, hcp]
          | some cc =>
              by_cases hc : cc = 0
              · subst hc
                refine ⟨?_, ?_⟩ <;> simp [step, h2, hcp]
              · refine ⟨?_, ?_⟩ <;> simp [step, h2, hcp, hc]
        rw [hp.2]
        rw [hp.1] at hreg
        exact hinv u hreg
      · have hp : (step admins g (Event.startCmd v pl) now).1.profiles = g.profiles ∧
            (step admins g (Event.startCmd v pl) now).1.sessions =
            upd g.sessions v (some ⟨.first_name, startData g v⟩) := by
          cases pl with
          | none => refine ⟨?_, ?_⟩ <;> simp [step, h2]
          | some cc => refine ⟨?_, ?_⟩ <;> simp [step, h2]
        rw [hp.2]
        rw [hp.1] at hreg
        by_cases huv : u = v
        · subst huv
          exact absurd hreg h2
        · rw [upd_ne _ _ _ _ huv]
          exact hinv u hreg
  | dmText v text =>
      rcases hs : g.sessions v with _ | s
      · have hp : (step admins g (Event.dmText v text) now).1.profiles = g.profiles ∧
            (step admins g (Event.dmText v text) now).1.sessions = g.sessions := by
          refine ⟨?_, ?_⟩ <;> simp [step, hs]
        rw [hp.2]
        rw [hp.1] at hreg
        exact hinv u hreg
      · cases hst : s.st with
        | confirm =>
            have hp : (step admins g (Event.dmText v text) now).1.profiles =
                g.profiles ∧
                (step admins g (Event.dmText v text) now).1.sessions = g.sessions := by
              refine ⟨?_, ?_⟩ <;> simp [step, hs, hst]
            rw [hp.2]
            rw [hp.1] at hreg
            exact hinv u hreg
        | first_name =>
            have hp : (step admins g (Event.dmText v text) now).1.profiles =
                g.profiles ∧
                (step admins g (Event.dmText v text) now).1.sessions =
                upd g.sessions v (some (reg_first_name s text)) := by
              refine ⟨?_, ?_⟩ <;> simp [step, hs, hst]
            rw [hp.2]
            rw [hp.1] at hreg
            exact regInv_upd_some g hinv v s hs _ u hreg
        | last_name =>
            have hp : (step admins g (Event.dmText v text) now).1.profiles =
                g.profiles ∧
                (step admins g (Event.dmText v text) now).1.sessions =
                upd g.sessions v (some (reg_last_name s text)) := by
              refine ⟨?_, ?_⟩ <;> simp [step, hs, hst]
            rw [hp.2]
            rw [hp.1] at hreg
            exact regInv_upd_some g hinv v s hs _ u hreg
        | school_cls =>
            have hp : (step admins g (Event.dmText v text) now).1.profiles =
                g.profiles ∧
                (step admins g (Event.dmText v text) now).1.sessions =
                upd g.sessions v (some (reg_class s text)) := by
              refine ⟨?_, ?_⟩ <;> simp [step, hs, hst]
            rw [hp.2]
            rw [hp.1] at hreg
            exact regInv_upd_some g hinv v s hs _ u hreg
        | email =>
            have hp : (step admins g (Event.dmText v text) now).1.profiles =
                g.profiles ∧
                (step admins g (Event.dmText v text) now).1.sessions =
                upd g.sessions v (some (reg_email s text).1) := by
              refine ⟨?_, ?_⟩ <;> simp [step, hs, hst]
            rw [hp.2]
            rw [hp.1] at hreg
            exact regInv_upd_some g hinv v s hs _ u hreg
  | editCb v t =>
      rcases hs : g.sessions v with _ | s
      · have hp : (step admins g (Event.editCb v t) now).1.profiles = g.profiles ∧
            (step admins g (Event.editCb v t) now).1.sessions = g.sessions := by
          refine ⟨?_, ?_⟩ <;> simp [step, hs]
        rw [hp.2]
        rw [hp.1] at hreg
        exact hinv u hreg
      · by_cases hst : s.st = RegState.confirm
        · cases t with
          | first =>
              have hp : (step admins g (Event.editCb v EditTarget.first) now).1.profiles =
                  g.profiles ∧
                  (step admins g (Event.editCb v EditTarget.first) now).1.sessions =
                  upd g.sessions v (some (edit_first s)) := by
                refine ⟨?_, ?_⟩ <;> simp [step, hs, hst]
              rw [hp.2]
              rw [hp.1] at hreg
              exact regInv_upd_some g hinv v s hs _ u hreg
          | last =>
              have hp : (step admins g (Event.editCb v EditTarget.last) now).1.profiles =
                  g.profiles ∧
                  (step admins g (Event.editCb v EditTarget.last) now).1.sessions =
                  upd g.sessions v (some (edit_last s)) := by
                refine ⟨?_, ?_⟩ <;> simp [step, hs, hst]
              rw [hp.2]
              rw [hp.1] at hreg
              exact regInv_upd_some g hinv v s hs _ u hreg
          | cls =>
              have hp : (step admins g (Event.editCb v EditTarget.cls) now).1.profiles =
                  g.profiles ∧
                  (step admins g (Event.editCb v EditTarget.cls) now).1.sessions =
                  upd g.sessions v (some (edit_cls s)) := by
                refine ⟨?_, ?_⟩ <;> simp [step, hs, hst]
              rw [hp.2]
              rw [hp.1] at hreg
              exact regInv_upd_some g hinv v s hs _ u hreg
          | email =>
              have hp : (step admins g (Event.editCb v EditTarget.email) now).1.profiles =
                  g.profiles ∧
                  (step admins g (Event.editCb v EditTarget.email) now).1.sessions =
                  upd g.sessions v (some (edit_email s)) := by
                refine ⟨?_, ?_⟩ <;> simp [step, hs, hst]
              rw [hp.2]
              rw [hp.1] at hreg
              exact regInv_upd_some g hinv v s hs _ u hreg
        · have hp : (step admins g (Event.editCb v t) now).1.profiles = g.profiles ∧
              (step admins g (Event.editCb v t) now).1.sessions = g.sessions := by
            refine ⟨?_, ?_⟩ <;> simp [step, hs, hst]
          rw [hp.2]
          rw [hp.1] at hreg
          exact hinv u hreg
  | confirmCb v =>
      rcases hs : g.sessions v with _ | s
      · have hp : (step admins g (Event.confirmCb v) now).1.profiles = g.profiles ∧
            (step admins g (Event.confirmCb v) now).1.sessions = g.sessions := by
          refine ⟨?_, ?_⟩ <;> simp [step, hs]
        rw [hp.2]
        rw [hp.1] at hreg
        exact hinv u hreg
      · by_cases hst : s.st = RegState.confirm
        · obtain ⟨hprof, hsess, _⟩ := step_confirmCb_fields admins g v now s hs hst
          rw [hsess]
          rw [hprof] at hreg
          cases hsr : save_profile g.profiles v (getField s.data.first_name)
              (getField s.data.last_name) (getField s.data.school_cls)
              (getField s.data.email) now with
          | error err =>
              cases err with
              | invalidEmail =>
                  have hchp : (confirm_handler g.profiles g.pending s v now).profiles =
                      g.profiles := by
                    unfold confirm_handler
                    rw [hsr]
                  have hchs : (confirm_handler g.profiles g.pending s v now).session =
                      some ⟨.email, s.data⟩ := by
                    unfold confirm_handler
                    rw [hsr]
                  rw [hchs]
                  rw [hchp] at hreg
                  exact regInv_upd_some g hinv v s hs _ u hreg
              | uniqueEmailViolation =>
                  have hchp : (confirm_handler g.profiles g.pending s v now).profiles =
                      g.profiles := by
                    unfold confirm_handler
                    rw [hsr]
                  have hchs : (confirm_handler g.profiles g.pending s v now).session =
                      some s := by
                    unfold confirm_handler
                    rw [hsr]
                  rw [hchs]
                  rw [hchp] at hreg
                  exact regInv_upd_some g hinv v s hs _ u hreg
          | ok store2 =>
              obtain ⟨_, _, hst2⟩ := save_profile_ok_inv hsr
              have hchp : (confirm_handler g.profiles g.pending s v now).profiles =
                  store2 := by
                simp only [confirm_handler, hsr]
                rcases hcp2 : consume_pending g.pending v with ⟨o, ps2⟩
                cases o with
                | none => rfl
                | some cc => split <;> first | rfl | (split <;> rfl)
              have hchs : (confirm_handler g.profiles g.pending s v now).session =
                  none := by
                simp only [confirm_handler, hsr]
                rcases hcp2 : consume_pending g.pending v with ⟨o, ps2⟩
                cases o with
                | none => rfl
                | some cc => split <;> first | rfl | (split <;> rfl)
              rw [hchs]
              by_cases huv : u = v
              · subst huv
                rw [upd_self]
              · rw [upd_ne _ _ _ _ huv]
                rw [hchp, hst2] at hreg
                obtain ⟨row, hrow, hrowid⟩ := is_registered_iff.mp hreg
                rcases mem_upsertProfile hrow with hrg | hrp
                · exact hinv u (is_registered_iff.mpr ⟨row, hrg, hrowid⟩)
                · exfalso
                  subst hrp
                  simp only at hrowid
                  exact huv hrowid.symm
        · have hp : (step admins g (Event.confirmCb v) now).1.profiles = g.profiles ∧
              (step admins g (Event.confirmCb v) now).1.sessions = g.sessions := by
            refine ⟨?_, ?_⟩ <;> simp [step, hs, hst]
          rw [hp.2]
          rw [hp.1] at hreg
          exact hinv u hreg
  | whoCmd a b =>
      have hp : (step admins g (Event.whoCmd a b) now).1.profiles = g.profiles ∧
          (step admins g (Event.whoCmd a b) now).1.sessions = g.sessions := by
        refine ⟨?_, ?_⟩ <;> simp [step]
      rw [hp.2]
      rw [hp.1] at hreg
      exact hinv u hreg
  | removeCmd caller target =>
      have hsess : (step admins g (Event.removeCmd caller target) now).1.sessions =
          g.sessions := by
        simp [step]
      have hprof : (step admins g (Event.removeCmd caller target) now).1.profiles =
          (remove_cmd admins caller target g.profiles).2 := by
        simp [step]
      rw [hsess]
      rw [hprof] at hreg
      have hsub : ∀ pfl ∈ (remove_cmd admins caller target g.profiles).2,
          pfl ∈ g.profiles := by
        intro pfl hp
        unfold remove_cmd at hp
        by_cases hgate : admins ≠ [] ∧ caller ∉ admins
        · rw [if_pos hgate] at hp
          exact hp
        · rw [if_neg hgate] at hp
          cases target with
          | none => exact hp
          | some t =>
              unfold delete_profile at hp
              exact (List.mem_filter.mp hp).1
      obtain ⟨row, hrow, hrowid⟩ := is_registered_iff.mp hreg
      exact hinv u (is_registered_iff.mpr ⟨row, hsub row hrow, hrowid⟩)

/-- Claim C9: for a registered user, `/start` opens no registration
session; it consumes exactly the most recently created pending entry of
that user (when one exists, with a truthy chat id) and unlocks that chat;
and among all dispatched events, a `/start` from that user is the only one
that can emit an unlock for them. -/
theorem registered_start_only_unlock
    (admins : List Int) (g : GState) (e : Event) (now : Nat) (u : Int)
    (hinv : RegInv g) (hreg : is_registered g.profiles u = true) :
    (∀ c, Action.unlock c u ∈ (step admins g e now).2 → ∃ pl, e = Event.startCmd u pl) ∧
    (∀ pl, (step admins g (Event.startCmd u pl) now).1.sessions u = none) ∧
    (∀ pl q, q ∈ pendingFor g.pending u →
      (∀ r ∈ pendingFor g.pending u, r ≠ q → r.created_at < q.created_at) →
      q.chat_id ≠ 0 →
      (step admins g (Event.startCmd u pl) now).2 = [Action.unlock q.chat_id u] ∧
      (step admins g (Event.startCmd u pl) now).1.pending =
        g.pending.filter (fun r => decide (¬ (r.user_id = u ∧ r.chat_id = q.chat_id)))) := by
  have hsessnone := hinv u hreg
  refine ⟨?_, ?_, ?_⟩
  · intro c hmem
    cases e with
    | userJoin c2 v isBot isGroup =>
        exfalso
        by_cases h1 : isGroup = false ∨ isBot = true
        · simp [step, h1] at hmem
        · by_cases h2 : is_registered g.profiles v = true
          · simp [step, h1, h2] at hmem
          · simp [step, h1, h2] at hmem
    | groupMsg c2 v =>
        exfalso
        by_cases h2 : is_registered g.profiles v = true
        · simp [step, h2] at hmem
        · simp [step, h2] at hmem
    | startCmd v pl =>
        by_cases hv : v = u
        · subst hv
          exact ⟨pl, rfl⟩
        · exfalso
          by_cases h2 : is_registered g.profiles v = true
          · rcases hcp : consume_pending g.pending v with ⟨o, ps2⟩
            cases o with
            | none => simp [step, h2, hcp] at hmem
            | some cc =>
                by_cases hc : cc = 0
                · subst hc
                  simp [step, h2, hcp] at hmem
                · simp [step, h2, hcp, hc] at hmem
                  exact hv hmem.2.symm
          · simp [step, h2] at hmem
    | dmText v text =>
        exfalso
        rcases hs : g.sessions v with _ | s
        · simp [step, hs] at hmem
        · cases hst : s.st <;> simp [step, hs, hst] at hmem
    | editCb v t =>
        exfalso
        rcases hs : g.sessions v with _ | s
        · simp [step, hs] at hmem
        · by_cases hst : s.st = RegState.confirm
          · simp [step, hs, hst] at hmem
          · simp [step, hs, hst] at hmem
    | confirmCb v =>
        by_cases hv : v = u
        · subst hv
          exfalso
          simp [step, hsessnone] at hmem
        · exfalso
          rcases hs : g.sessions v with _ | s
          · simp [step, hs] at hmem
          · by_cases hst : s.st = RegState.confirm
            · cases hout : (confirm_handler g.profiles g.pending s v now).outcome with
              | registered o =>
                  cases o with
                  | none => simp [step, hs, hst, hout] at hmem
                  | some cc =>
                      simp [step, hs, hst, hout] at hmem
                      exact hv hmem.2.symm
              | repromptEmail => simp [step, hs, hst, hout] at hmem
              | uncaught er => simp [step, hs, hst, hout] at hmem
            · simp [step, hs, hst] at hmem
    | whoCmd a b =>
        exfalso
        simp [step] at hmem
    | removeCmd a b =>
        exfalso
        simp [step] at hmem
  · intro pl
    rcases hcp : consume_pending g.pending u with ⟨o, ps2⟩
    cases o with
    | none => simp [step, hreg, hcp, hsessnone]
    | some cc =>
        by_cases hc : cc = 0
        · subst hc
          simp [step, hreg, hcp, hsessnone]
        · simp [step, hreg, hcp, hc, hsessnone]
  · intro pl q hq hmax hc0
    have hcp : consume_pending g.pending u =
        (some q.chat_id,
          g.pending.filter (fun r => decide (¬ (r.user_id = u ∧ r.chat_id = q.chat_id)))) := by
      unfold consume_pending
      rw [pickLatest_strictmax hq hmax]
    constructor
    · simp [step, hreg, hcp, hc0]
    · simp [step, hreg, hcp, hc0]

/-- Witness for C9: registered user 1 with one pending entry (chat -42)
sends `/start`; no session opens and exactly chat -42 is unlocked. -/
theorem registered_start_only_unlock_witness :
    (step [] c9State (Event.startCmd 1 none) 7).2 = [Action.unlock (-42) 1] ∧
    (step [] c9State (Event.startCmd 1 none) 7).1.sessions 1 = none := by
  have h := registered_start_only_unlock [] c9State (Event.startCmd 1 none) 7 1
    (fun _ _ => rfl) (by decide)
  exact ⟨(h.2.2 none ⟨1, -42, 5⟩ (by decide) (by decide) (by decide)).1, h.2.1 none⟩

end ClaimTheorems

end TgBotAra
